import Mathlib

/-!
Shallow embedding of `src/yt_extract/__main__.py` (yt-extract): a script that
fetches YouTube video metadata in batches and renders it as a table.  Python
values flowing through the script (decoded JSON, extractor results, table
cells) are modelled by `PyVal`; dictionaries are association lists in
insertion order, matching CPython's ordered dicts.  Fallible Python
operations (attribute errors on non-mapping receivers) are modelled with
`Option`, where `Option.none` stands for an uncaught exception.
-/

namespace YtExtract

/-- Model of the Python/JSON value domain used by the script: `None`,
integers, strings, lists and dictionaries (as ordered association lists). -/
inductive PyVal where
  | none
  | int (n : Int)
  | str (s : String)
  | list (xs : List PyVal)
  | dict (fields : List (String × PyVal))
deriving Repr

/-- Python truthiness of a `PyVal` (`bool(v)`). -/
def PyVal.truthy : PyVal → Bool
  | .none => false
  | .int n => n != 0
  | .str s => s != ""
  | .list xs => !xs.isEmpty
  | .dict fs => !fs.isEmpty

/-- Python `a or b`: `a` when truthy, else `b`. -/
def pyOr (a b : PyVal) : PyVal := if a.truthy then a else b

/-- Python `fs.get(k, d)` on a dictionary given as an association list:
the value stored under `k` (which may itself be `None`), else the default. -/
def dictGet (fs : List (String × PyVal)) (k : String) (d : PyVal) : PyVal :=
  match fs.lookup k with
  | Option.some v => v
  | Option.none => d

/-- Python `v.get(k, d)` on an arbitrary value: dictionary lookup with a
default; on a non-dictionary receiver the call raises `AttributeError`,
modelled as `Option.none`. -/
def pyGet (v : PyVal) (k : String) (d : PyVal) : Option PyVal :=
  match v with
  | .dict fs => Option.some (dictGet fs k d)
  | _ => Option.none

/-- Characters stripped by Python's `str.strip()` (ASCII whitespace, which is
all the source's inputs contain). -/
def isPySpace (c : Char) : Bool :=
  c = ' ' || c = '\t' || c = '\n' || c = '\r' || c = '\x0b' || c = '\x0c'

/-- Python `s.strip()`: drop leading and trailing whitespace. -/
def pyStrip (s : String) : String :=
  String.mk (((s.toList.dropWhile isPySpace).reverse.dropWhile isPySpace).reverse)

/- --- Duration (ISO 8601): `DURATION_RE` and `parse_duration` --- -/

/-- Numeric value of a digit string, as matched by a `(\d+)` group. -/
def natOfDigits (ds : List Char) : Nat :=
  ds.foldl (fun n c => 10 * n + (c.toNat - '0'.toNat)) 0

/-- Model of one optional regex component `(?:(\d+)X)?` of `DURATION_RE`
(with `X` the marker `H`, `M` or `S`, case-insensitively): consume a
non-empty digit run followed by the marker, else match nothing and leave
the input in place. -/
def tryComp (cs : List Char) (marker : Char) : Option Nat × List Char :=
  match cs.takeWhile Char.isDigit, cs.dropWhile Char.isDigit with
  | _ :: _, c :: rest =>
      if c.toUpper = marker then
        (Option.some (natOfDigits (cs.takeWhile Char.isDigit)), rest)
      else (Option.none, cs)
  | _, _ => (Option.none, cs)

/-- Model of `DURATION_RE.match(s)` for the pattern
`PT(?:(\d+)H)?(?:(\d+)M)?(?:(\d+)S)?` with `re.IGNORECASE`: a match exists
iff the input starts with `PT` (case-insensitive); the three groups are the
optional hour/minute/second digit runs.  Trailing input is ignored
(`re.match` is not anchored at the end). -/
def matchDuration (s : String) : Option (Option Nat × Option Nat × Option Nat) :=
  match s.toList with
  | p :: t :: rest =>
      if p.toUpper = 'P' ∧ t.toUpper = 'T' then
        let (h, r1) := tryComp rest 'H'
        let (mn, r2) := tryComp r1 'M'
        let (sec, _) := tryComp r2 'S'
        Option.some (h, mn, sec)
      else Option.none
  | _ => Option.none

/-- Python `f"{n:02d}"` for a non-negative integer. -/
def pad2 (n : Nat) : String := if n < 10 then "0" ++ toString n else toString n

/-- Model of `parse_duration`: convert an ISO 8601 duration (e.g. `PT55M5S`)
to human-readable form (e.g. `55:05`).  Empty input yields the empty string;
input whose stripped form does not match `DURATION_RE` is returned
unchanged; otherwise the hour part is emitted only when non-zero, and
minutes and seconds are zero-padded to two digits. -/
def parse_duration (iso_duration : String) : String :=
  if iso_duration = "" then ""
  else
    match matchDuration (pyStrip iso_duration) with
    | Option.none => iso_duration
    | Option.some (h?, mn?, s?) =>
        let h := h?.getD 0
        let mn := mn?.getD 0
        let s := s?.getD 0
        let parts := (if h ≠ 0 then [toString h] else []) ++ [pad2 mn, pad2 s]
        String.intercalate ":" parts

/- --- Column extractors --- -/

/-- Model of `raw.replace("Z", "+00:00")` in `_col_publication_date`. -/
def pyReplaceZ (s : String) : String :=
  String.mk (s.toList.foldr (fun c acc =>
    (if c = 'Z' then ['+', '0', '0', ':', '0', '0'] else [c]) ++ acc) [])

/-- Leap-year rule of the proleptic Gregorian calendar used by `datetime`. -/
def isLeap (y : Nat) : Bool := (y % 4 = 0 && y % 100 ≠ 0) || y % 400 = 0

/-- Number of days of month `m` of year `y`. -/
def daysInMonth (y m : Nat) : Nat :=
  if m = 2 then (if isLeap y then 29 else 28)
  else if m = 4 || m = 6 || m = 9 || m = 11 then 30
  else 31

/-- Validity of an optional UTC-offset suffix `±HH:MM[:SS]` of an ISO
timestamp, as accepted by `datetime.fromisoformat`. -/
def validOffset : List Char → Bool
  | [] => true
  | sgn :: h1 :: h2 :: ':' :: m1 :: m2 :: rest =>
      (sgn = '+' || sgn = '-') && [h1, h2, m1, m2].all Char.isDigit &&
      natOfDigits [h1, h2] < 24 && natOfDigits [m1, m2] < 60 &&
      (rest.isEmpty ||
        (match rest with
         | ':' :: s1 :: s2 :: [] =>
             [s1, s2].all Char.isDigit && natOfDigits [s1, s2] < 60
         | _ => false))
  | _ => false

/-- Validity of an optional fractional-seconds suffix `.fff` / `.ffffff`
followed by an optional offset. -/
def validFrac : List Char → Bool
  | [] => true
  | '.' :: rest =>
      let ds := rest.takeWhile Char.isDigit
      (ds.length = 3 || ds.length = 6) && validOffset (rest.dropWhile Char.isDigit)
  | l => validOffset l

/-- Validity of an optional `:SS` suffix followed by fraction/offset. -/
def validSec : List Char → Bool
  | [] => true
  | ':' :: s1 :: s2 :: rest =>
      [s1, s2].all Char.isDigit && natOfDigits [s1, s2] < 60 && validFrac rest
  | l => validOffset l

/-- Validity of a time part `HH:MM[:SS[.ffffff]][±HH:MM]`. -/
def validTime : List Char → Bool
  | h1 :: h2 :: ':' :: m1 :: m2 :: rest =>
      [h1, h2, m1, m2].all Char.isDigit &&
      natOfDigits [h1, h2] < 24 && natOfDigits [m1, m2] < 60 && validSec rest
  | _ => false

/-- Model of `datetime.fromisoformat`, restricted to the calendar date it
contributes to `strftime("%Y-%m-%d")`: `Option.some (y, m, d)` when the
string is a valid ISO `YYYY-MM-DD[{T or space}HH:MM[:SS[.ffffff]][±HH:MM]]`
timestamp, else `Option.none` (the `ValueError` branch). -/
def pyFromIsoformatDate (s : String) : Option (Nat × Nat × Nat) :=
  match s.toList with
  | y1 :: y2 :: y3 :: y4 :: '-' :: m1 :: m2 :: '-' :: d1 :: d2 :: rest =>
      if [y1, y2, y3, y4, m1, m2, d1, d2].all Char.isDigit &&
         (rest.isEmpty ||
           (match rest with
            | [] => false
            | sep :: ts => (sep = 'T' || sep = ' ') && validTime ts)) then
        let y := natOfDigits [y1, y2, y3, y4]
        let m := natOfDigits [m1, m2]
        let d := natOfDigits [d1, d2]
        if 1 ≤ y && 1 ≤ m && m ≤ 12 && 1 ≤ d && d ≤ daysInMonth y m then
          Option.some (y, m, d)
        else Option.none
      else Option.none
  | _ => Option.none

/-- Python `f"{y:04d}"`, the `%Y` field of `strftime`. -/
def pad4 (n : Nat) : String :=
  if n < 10 then "000" ++ toString n
  else if n < 100 then "00" ++ toString n
  else if n < 1000 then "0" ++ toString n
  else toString n

/-- Model of `_col_id`: `item.get("id", "")`. -/
def _col_id (item : PyVal) : Option PyVal := pyGet item "id" (.str "")

/-- Model of `_col_title`: `(item.get("snippet") or {}).get("title", "")`. -/
def _col_title (item : PyVal) : Option PyVal := do
  let sn ← pyGet item "snippet" PyVal.none
  pyGet (pyOr sn (.dict [])) "title" (.str "")

/-- Model of `_col_publication_date`: a falsy `publishedAt` yields the empty
string; a string value is reformatted as `YYYY-MM-DD` when it parses as an
ISO timestamp after replacing `Z` and is returned unchanged otherwise; a
truthy non-string value makes `.replace` raise inside the `try` block, and
the caught exception returns the raw value unchanged. -/
def _col_publication_date (item : PyVal) : Option PyVal := do
  let sn ← pyGet item "snippet" PyVal.none
  let raw ← pyGet (pyOr sn (.dict [])) "publishedAt" (.str "")
  if !raw.truthy then pure (.str "")
  else
    match raw with
    | PyVal.str s =>
        match pyFromIsoformatDate (pyReplaceZ s) with
        | Option.some (y, m, d) =>
            pure (.str (pad4 y ++ "-" ++ pad2 m ++ "-" ++ pad2 d))
        | Option.none => pure (.str s)
    | v => pure v

/-- Model of `_col_channel_title`:
`(item.get("snippet") or {}).get("channelTitle", "")`. -/
def _col_channel_title (item : PyVal) : Option PyVal := do
  let sn ← pyGet item "snippet" PyVal.none
  pyGet (pyOr sn (.dict [])) "channelTitle" (.str "")

/-- Model of `_col_view_count`:
`(item.get("statistics") or {}).get("viewCount", "0")`. -/
def _col_view_count (item : PyVal) : Option PyVal := do
  let st ← pyGet item "statistics" PyVal.none
  pyGet (pyOr st (.dict [])) "viewCount" (.str "0")

/-- Model of `_col_like_count`:
`(item.get("statistics") or {}).get("likeCount", "0")`. -/
def _col_like_count (item : PyVal) : Option PyVal := do
  let st ← pyGet item "statistics" PyVal.none
  pyGet (pyOr st (.dict [])) "likeCount" (.str "0")

/-- Model of `_col_comment_count`:
`(item.get("statistics") or {}).get("commentCount", "0")`. -/
def _col_comment_count (item : PyVal) : Option PyVal := do
  let st ← pyGet item "statistics" PyVal.none
  pyGet (pyOr st (.dict [])) "commentCount" (.str "0")

/-- Model of `_col_duration`: `parse_duration` applied to
`(item.get("contentDetails") or {}).get("duration", "")`.  A falsy
non-string raw value is returned as the empty string by `parse_duration`'s
leading falsiness check; a truthy non-string makes `.strip()` raise,
modelled as `Option.none`. -/
def _col_duration (item : PyVal) : Option PyVal := do
  let cd ← pyGet item "contentDetails" PyVal.none
  let raw ← pyGet (pyOr cd (.dict [])) "duration" (.str "")
  match raw with
  | PyVal.str s => pure (.str (parse_duration s))
  | v => if v.truthy then Option.none else pure (.str "")

/-- `COLUMN_EXTRACTORS`: column id → (header label, extractor function).
The order here defines the default order. -/
def COLUMN_EXTRACTORS : List (String × String × (PyVal → Option PyVal)) :=
  [("id", ("id", _col_id)),
   ("title", ("title", _col_title)),
   ("publication_date", ("publication date", _col_publication_date)),
   ("channel_title", ("channel title", _col_channel_title)),
   ("view_count", ("view count", _col_view_count)),
   ("like_count", ("like count", _col_like_count)),
   ("comment_count", ("comment count", _col_comment_count)),
   ("duration", ("duration", _col_duration))]

/-- `DEFAULT_TABLE_COLUMNS` from the source. -/
def DEFAULT_TABLE_COLUMNS : List String :=
  ["id", "title", "publication_date", "channel_title", "view_count",
   "like_count", "comment_count", "duration"]

/- --- Row building and rendering --- -/

/-- Model of `v.replace("|", "\\|")` on one string cell. -/
def escapePipes (s : String) : String :=
  String.mk (s.toList.foldr (fun c acc =>
    (if c = '|' then ['\\', '|'] else [c]) ++ acc) [])

/-- Model of `_escape_pipes_for_markdown`: a copy of the rows in which every
string cell value has `|` replaced by `\\|`; non-string values are kept. -/
def _escape_pipes_for_markdown (rows : List (List (String × PyVal))) :
    List (List (String × PyVal)) :=
  rows.map (fun row => row.map (fun kv =>
    (kv.1,
     match kv.2 with
     | PyVal.str s => PyVal.str (escapePipes s)
     | v => v)))

/-- Python dictionary assignment `row[label] = v` on an association list in
insertion order: update in place when the key is present, else append. -/
def dictSet (d : List (String × PyVal)) (k : String) (v : PyVal) :
    List (String × PyVal) :=
  if d.any (fun kv => kv.1 = k) then
    d.map (fun kv => if kv.1 = k then (k, v) else kv)
  else d ++ [(k, v)]

/-- Body of the `items_to_rows` loop for one item: walk the requested column
ids in the given order, skip ids missing from `COLUMN_EXTRACTORS`, and
assign each extracted value under the column's label; `Option.none`
propagates an extractor exception. -/
def buildRow (item : PyVal) (cols : List String) :
    Option (List (String × PyVal)) :=
  cols.foldlM
    (fun row col_id =>
      match COLUMN_EXTRACTORS.lookup col_id with
      | Option.none => pure row
      | Option.some (label, extractor) => do
          let v ← extractor item
          pure (dictSet row label v))
    []

/-- Model of `items_to_rows`: build one row per item using the given column
ids; `columns or DEFAULT_TABLE_COLUMNS` replaces both `None` and the empty
list by the default column ids. -/
def items_to_rows (items : List PyVal) (columns : Option (List String)) :
    Option (List (List (String × PyVal))) :=
  let cols :=
    match columns with
    | Option.none => DEFAULT_TABLE_COLUMNS
    | Option.some l => if l.isEmpty then DEFAULT_TABLE_COLUMNS else l
  items.mapM (fun item => buildRow item cols)

/- --- Identifier normalization --- -/

/-- Characters matched by the regex class `[\s,]` in `normalize_ids`. -/
def isSepChar (c : Char) : Bool := c = ',' || isPySpace c

/-- Model of `re.split(r"[\s,]+", s)`: the fields between maximal separator
runs, including empty fields at the borders; `cur` holds the current field
reversed and `inSep` records whether the previous character was part of a
separator run. -/
def reSplitAux : List Char → List Char → Bool → List String
  | [], cur, _ => [String.mk cur.reverse]
  | c :: cs, cur, inSep =>
      if isSepChar c then
        if inSep then reSplitAux cs cur true
        else String.mk cur.reverse :: reSplitAux cs [] true
      else reSplitAux cs (c :: cur) false

/-- `re.split(r"[\s,]+", s)` on a string. -/
def reSplitSeps (s : String) : List String := reSplitAux s.toList [] false

/-- Model of `normalize_ids`: split each raw string on comma/whitespace
runs, strip each part, and drop the empty ones, preserving order and
duplicates. -/
def normalize_ids (raw : List String) : List String :=
  raw.foldr (fun s acc =>
    (reSplitSeps s).filterMap (fun part =>
      let part := pyStrip part
      if part = "" then Option.none else Option.some part) ++ acc) []

/-- Modelled from the spec ("Identifier Normalizer", section 4.1): the flat
sequence of maximal runs of non-separator characters of one input string,
in order; `cur` holds the current run reversed. -/
def specTokensAux : List Char → List Char → List String
  | [], cur => if cur.isEmpty then [] else [String.mk cur.reverse]
  | c :: cs, cur =>
      if isSepChar c then
        if cur.isEmpty then specTokensAux cs []
        else String.mk cur.reverse :: specTokensAux cs []
      else specTokensAux cs (c :: cur)

/-- Spec-side tokenizer for one raw input string. -/
def specTokens (s : String) : List String := specTokensAux s.toList []

/- --- Batch fetcher --- -/

/-- `API_BASE` from the source. -/
def API_BASE : String := "https://www.googleapis.com/youtube/v3/videos"

/-- `PARTS` from the source. -/
def PARTS : String := "snippet,contentDetails,statistics"

/-- `BATCH_SIZE` from the source. -/
def BATCH_SIZE : Nat := 50

/-- The query parameters of the request issued for one chunk. -/
def requestParams (api_key : String) (chunk : List String) :
    List (String × String) :=
  [("key", api_key), ("part", PARTS), ("id", String.intercalate "," chunk)]

/-- Structural worker for `chunksOf`: each step takes one slice of
`BATCH_SIZE` elements and recurses on the rest.  The fuel argument starts at
the length of the list and the non-empty list of a step shrinks by at least
one element per step, so the zero-fuel case is never reached from
`chunksOf`. -/
def chunksGo : Nat → List String → List (List String)
  | _, [] => []
  | 0, _ :: _ => []
  | fuel + 1, x :: xs =>
      (x :: xs).take BATCH_SIZE :: chunksGo fuel ((x :: xs).drop BATCH_SIZE)

/-- The consecutive slices `video_ids[i : i + BATCH_SIZE]` for
`i = 0, BATCH_SIZE, 2 * BATCH_SIZE, ...` produced by the loop in
`fetch_videos`. -/
def chunksOf (video_ids : List String) : List (List String) :=
  chunksGo video_ids.length video_ids

/-- Outcome of one chunk request as seen by `fetch_videos`: an HTTP error
status with body, a transport failure, a JSON decode failure, or a decoded
payload. -/
inductive ChunkResult where
  | httpError (code : Nat) (body : String)
  | urlError (reason : String)
  | badJson (msg : String)
  | ok (payload : PyVal)

/-- `payload.get("items") or []` followed by `all_items.extend(items)`: the
items contributed by one decoded payload.  A falsy `items` value contributes
nothing; extending by a string or dictionary follows Python iteration
(characters, keys); a non-dictionary payload or a truthy non-iterable
`items` value raises, modelled as `Option.none`. -/
def pyItems (payload : PyVal) : Option (List PyVal) :=
  match payload with
  | PyVal.dict fs =>
      match pyOr (dictGet fs "items" PyVal.none) (PyVal.list []) with
      | PyVal.list xs => Option.some xs
      | PyVal.str s => Option.some (s.toList.map (fun c => PyVal.str (String.mk [c])))
      | PyVal.dict gs => Option.some (gs.map (fun kv => PyVal.str kv.1))
      | _ => Option.none
  | _ => Option.none

/-- Requests issued and overall result of `fetch_videos`: on the first
failing chunk the source prints a diagnostic and exits with status 1 (an
uncaught iteration error likewise terminates with a non-zero status,
modelled as the same exit). -/
structure FetchOutcome where
  requests : List (List (String × String))
  result : Except Nat (List PyVal)

/-- The chunk loop of `fetch_videos` over the remaining chunks, with `acc`
the items accumulated so far; `fetch` models `urlopen` + `read` +
`json.loads` for one request. -/
def fetchLoop (api_key : String) (fetch : List (String × String) → ChunkResult) :
    List (List String) → List PyVal → FetchOutcome
  | [], acc => ⟨[], Except.ok acc⟩
  | chunk :: rest, acc =>
      let req := requestParams api_key chunk
      match fetch req with
      | ChunkResult.httpError _ _ => ⟨[req], Except.error 1⟩
      | ChunkResult.urlError _ => ⟨[req], Except.error 1⟩
      | ChunkResult.badJson _ => ⟨[req], Except.error 1⟩
      | ChunkResult.ok payload =>
          match pyItems payload with
          | Option.none => ⟨[req], Except.error 1⟩
          | Option.some items =>
              let out := fetchLoop api_key fetch rest (acc ++ items)
              ⟨req :: out.requests, out.result⟩

/-- Model of `fetch_videos`: batch the ids into chunks of `BATCH_SIZE`,
issue one request per chunk in order and concatenate the returned items. -/
def fetch_videos (api_key : String) (fetch : List (String × String) → ChunkResult)
    (video_ids : List String) : FetchOutcome :=
  fetchLoop api_key fetch (chunksOf video_ids) []

/- --- Entry point --- -/

/-- Model of `get_api_key`: the stripped value of `YOUTUBE_DATA_API_KEY`
(`Option.none` models an unset variable), or exit status 1 when missing or
blank. -/
def get_api_key (env : Option String) : Except Nat String :=
  let key := pyStrip (env.getD "")
  if key = "" then Except.error 1 else Except.ok key

/-- The two `--format` choices accepted by the CLI. -/
inductive Fmt where
  | markdown
  | grid
deriving Repr, DecidableEq

/-- The rows handed to `tabulate` in `main`: for the Markdown (`pipe`)
format the pipe-escaping pass is applied first; the grid format renders the
rows unchanged. -/
def renderRows (fmt : Fmt) (rows : List (List (String × PyVal))) :
    List (List (String × PyVal)) :=
  match fmt with
  | Fmt.markdown => _escape_pipes_for_markdown rows
  | Fmt.grid => rows

/-- The externally supplied state `main` runs against: positional
arguments, the line read from standard input when no arguments were given
(`Option.none` models end-of-input), the `--format` choice, the
`YOUTUBE_DATA_API_KEY` environment variable, and the network behaviour. -/
structure Env where
  argIds : List String
  stdinLine : Option String
  fmt : Fmt
  apiKeyEnv : Option String
  fetch : List (String × String) → ChunkResult

/-- Result of one run of `main`: `sys.exit` with a code, or a rendered
table (the process then finishes with exit status 0). -/
inductive MainResult where
  | exitWith (code : Nat)
  | rendered (rows : List (List (String × PyVal)))

/-- The raw ids `main` hands to `normalize_ids`: the positional arguments,
or, when there are none, the single stripped input line (`Option.none` when
the prompt hits end-of-input, on which `main` exits). -/
def effectiveRawIds (env : Env) : Option (List String) :=
  if env.argIds.isEmpty then
    match env.stdinLine with
    | Option.none => Option.none
    | Option.some line =>
        let l := pyStrip line
        Option.some (if l = "" then [] else [l])
  else Option.some env.argIds

/-- Model of `main` after argument parsing: normalize the ids, read the API
key, fetch the items, build the rows with the default columns, and render
with the selected format; every failure path exits with status 1. -/
def mainModel (env : Env) : MainResult :=
  match effectiveRawIds env with
  | Option.none => MainResult.exitWith 1
  | Option.some raw =>
      let video_ids := normalize_ids raw
      if video_ids.isEmpty then MainResult.exitWith 1
      else
        match get_api_key env.apiKeyEnv with
        | Except.error c => MainResult.exitWith c
        | Except.ok api_key =>
            match (fetch_videos api_key env.fetch video_ids).result with
            | Except.error c => MainResult.exitWith c
            | Except.ok items =>
                match items_to_rows items Option.none with
                | Option.none => MainResult.exitWith 1
                | Option.some rows =>
                    if rows.isEmpty then MainResult.exitWith 1
                    else MainResult.rendered (renderRows env.fmt rows)

/-- Exit status of a run: 0 exactly on the rendered-table outcome. -/
def exitCodeOf : MainResult → Nat
  | MainResult.exitWith c => c
  | MainResult.rendered _ => 0

/- --- Statement-support definitions --- -/

/-- A duration literal of the shape `PT[nH][nM][nS]` assembled from optional
digit runs, used to quantify over all strings matching the duration
pattern. -/
def mkDur (h mn s : Option (List Char)) : String :=
  String.mk ('P' :: 'T' ::
    ((h.map (fun d => d ++ ['H'])).getD [] ++
      ((mn.map (fun d => d ++ ['M'])).getD [] ++
        (s.map (fun d => d ++ ['S'])).getD [])))

/-- Whether a string starts with the two characters `PT`, case-insensitively:
exactly the strings `DURATION_RE` matches. -/
def startsWithPTci (s : String) : Bool :=
  match s.toList with
  | p :: t :: _ => p.toUpper = 'P' && t.toUpper = 'T'
  | _ => false

/-- The display labels selected by a list of column ids, in selection order,
restricted to ids present in `COLUMN_EXTRACTORS`. -/
def labelsOf (cols : List String) : List String :=
  cols.filterMap (fun c => (COLUMN_EXTRACTORS.lookup c).map Prod.fst)

end YtExtract

namespace YtExtract

/- --- Character and string helper lemmas --- -/

theorem isPySpace_false_of_sep_false {c : Char} (h : isSepChar c = false) :
    isPySpace c = false := by
  simp only [isSepChar, Bool.or_eq_false_iff] at h
  exact h.2

theorem isPySpace_false_of_isDigit {c : Char} (h : c.isDigit = true) :
    isPySpace c = false := by
  simp only [isPySpace, Bool.or_eq_false_iff, decide_eq_false_iff_not]
  refine ⟨⟨⟨⟨⟨?_, ?_⟩, ?_⟩, ?_⟩, ?_⟩, ?_⟩ <;> (rintro rfl; revert h; decide)

theorem isSepChar_false_of_isDigit {c : Char} (h : c.isDigit = true) :
    isSepChar c = false := by
  simp only [isSepChar, isPySpace, Bool.or_eq_false_iff, decide_eq_false_iff_not]
  refine ⟨?_, ⟨⟨⟨⟨⟨?_, ?_⟩, ?_⟩, ?_⟩, ?_⟩, ?_⟩⟩ <;> (rintro rfl; revert h; decide)

theorem dropWhile_space_eq_self {l : List Char} (h : ∀ c ∈ l, isPySpace c = false) :
    l.dropWhile isPySpace = l := by
  cases l with
  | nil => rfl
  | cons c cs => simp [List.dropWhile_cons, h c (List.mem_cons_self c cs)]

theorem pyStrip_of_noSpace {l : List Char} (h : ∀ c ∈ l, isPySpace c = false) :
    pyStrip (String.mk l) = String.mk l := by
  unfold pyStrip
  have h1 : (String.mk l).toList = l := rfl
  rw [h1, dropWhile_space_eq_self h,
    dropWhile_space_eq_self (fun c hc => h c (List.mem_reverse.mp hc)),
    List.reverse_reverse]

/- --- Lemmas for the duration regex model --- -/

theorem takeWhile_digits (ds : List Char) (c : Char) (rest : List Char)
    (hds : ∀ d ∈ ds, d.isDigit = true) (hc : c.isDigit = false) :
    (ds ++ c :: rest).takeWhile Char.isDigit = ds ∧
      (ds ++ c :: rest).dropWhile Char.isDigit = c :: rest := by
  induction ds with
  | nil => simp [List.takeWhile_cons, List.dropWhile_cons, hc]
  | cons d ds ih =>
      have hd : d.isDigit = true := hds d (List.mem_cons_self d ds)
      have ih2 := ih (fun x hx => hds x (List.mem_cons_of_mem d hx))
      simp [List.takeWhile_cons, List.dropWhile_cons, hd, ih2.1, ih2.2]

theorem tryComp_nil (marker : Char) : tryComp [] marker = (Option.none, []) := rfl

theorem tryComp_hit (ds : List Char) (c : Char) (rest : List Char) (marker : Char)
    (hne : ds ≠ []) (hds : ∀ d ∈ ds, d.isDigit = true) (hc : c.isDigit = false)
    (hm : c.toUpper = marker) :
    tryComp (ds ++ c :: rest) marker = (Option.some (natOfDigits ds), rest) := by
  obtain ⟨tw, dw⟩ := takeWhile_digits ds c rest hds hc
  unfold tryComp
  rw [tw, dw]
  cases ds with
  | nil => exact absurd rfl hne
  | cons d ds' => simp [hm]

theorem tryComp_wrong (ds : List Char) (c : Char) (rest : List Char) (marker : Char)
    (hds : ∀ d ∈ ds, d.isDigit = true) (hc : c.isDigit = false)
    (hm : ¬ c.toUpper = marker) :
    tryComp (ds ++ c :: rest) marker = (Option.none, ds ++ c :: rest) := by
  obtain ⟨tw, dw⟩ := takeWhile_digits ds c rest hds hc
  unfold tryComp
  rw [tw, dw]
  cases ds with
  | nil => simp
  | cons d ds' => simp [hm]

/-- A well-formed digit run: non-empty and all digits. -/
theorem tryComp_spart (s : Option (List Char))
    (hs : ∀ d ∈ s, d ≠ [] ∧ ∀ c ∈ d, c.isDigit = true) :
    tryComp ((s.map (fun d => d ++ ['S'])).getD []) 'S' = (s.map natOfDigits, []) := by
  cases s with
  | none => rfl
  | some sd =>
      obtain ⟨hne, hds⟩ := hs sd rfl
      simpa using tryComp_hit sd 'S' [] 'S' hne hds (by decide) (by decide)

theorem tryComp_mspart (mn s : Option (List Char))
    (hm : ∀ d ∈ mn, d ≠ [] ∧ ∀ c ∈ d, c.isDigit = true)
    (hs : ∀ d ∈ s, d ≠ [] ∧ ∀ c ∈ d, c.isDigit = true) :
    tryComp ((mn.map (fun d => d ++ ['M'])).getD [] ++
        (s.map (fun d => d ++ ['S'])).getD []) 'M'
      = (mn.map natOfDigits, (s.map (fun d => d ++ ['S'])).getD []) := by
  cases mn with
  | none =>
      cases s with
      | none => rfl
      | some sd =>
          obtain ⟨hne, hds⟩ := hs sd rfl
          cases sd with
          | nil => exact absurd rfl hne
          | cons d ds' =>
              simpa using tryComp_wrong (d :: ds') 'S' [] 'M'
                (fun x hx => hds x hx) (by decide) (by decide)
  | some md =>
      obtain ⟨hne, hds⟩ := hm md rfl
      simpa [List.append_assoc] using
        tryComp_hit md 'M' ((s.map (fun d => d ++ ['S'])).getD []) 'M' hne hds
          (by decide) (by decide)

theorem tryComp_hpart (h mn s : Option (List Char))
    (hh : ∀ d ∈ h, d ≠ [] ∧ ∀ c ∈ d, c.isDigit = true)
    (hm : ∀ d ∈ mn, d ≠ [] ∧ ∀ c ∈ d, c.isDigit = true)
    (hs : ∀ d ∈ s, d ≠ [] ∧ ∀ c ∈ d, c.isDigit = true) :
    tryComp ((h.map (fun d => d ++ ['H'])).getD [] ++
        ((mn.map (fun d => d ++ ['M'])).getD [] ++
          (s.map (fun d => d ++ ['S'])).getD [])) 'H'
      = (h.map natOfDigits,
          (mn.map (fun d => d ++ ['M'])).getD [] ++
            (s.map (fun d => d ++ ['S'])).getD []) := by
  cases h with
  | none =>
      cases mn with
      | none =>
          cases s with
          | none => rfl
          | some sd =>
              obtain ⟨hne, hds⟩ := hs sd rfl
              cases sd with
              | nil => exact absurd rfl hne
              | cons d ds' =>
                  simpa using tryComp_wrong (d :: ds') 'S' [] 'H'
                    (fun x hx => hds x hx) (by decide) (by decide)
      | some md =>
          obtain ⟨hne, hds⟩ := hm md rfl
          simpa [List.append_assoc] using
            tryComp_wrong md 'M' ((s.map (fun d => d ++ ['S'])).getD []) 'H'
              hds (by decide) (by decide)
  | some hd =>
      obtain ⟨hne, hds⟩ := hh hd rfl
      simpa [List.append_assoc] using
        tryComp_hit hd 'H'
          ((mn.map (fun d => d ++ ['M'])).getD [] ++
            (s.map (fun d => d ++ ['S'])).getD []) 'H' hne hds
          (by decide) (by decide)

theorem matchDuration_mkDur (h mn s : Option (List Char))
    (hh : ∀ d ∈ h, d ≠ [] ∧ ∀ c ∈ d, c.isDigit = true)
    (hm : ∀ d ∈ mn, d ≠ [] ∧ ∀ c ∈ d, c.isDigit = true)
    (hs : ∀ d ∈ s, d ≠ [] ∧ ∀ c ∈ d, c.isDigit = true) :
    matchDuration (mkDur h mn s) =
      Option.some (h.map natOfDigits, mn.map natOfDigits, s.map natOfDigits) := by
  have hshape : matchDuration (mkDur h mn s)
      = (let r1 := tryComp ((h.map (fun d => d ++ ['H'])).getD [] ++
            ((mn.map (fun d => d ++ ['M'])).getD [] ++
              (s.map (fun d => d ++ ['S'])).getD [])) 'H'
         let r2 := tryComp r1.2 'M'
         let r3 := tryComp r2.2 'S'
         Option.some (r1.1, r2.1, r3.1)) := by
    unfold mkDur matchDuration
    simp
  rw [hshape]
  simp only [tryComp_hpart h mn s hh hm hs, tryComp_mspart mn s hm hs,
    tryComp_spart s hs]

theorem part_noSpace (o : Option (List Char)) (marker : Char)
    (hmk : isPySpace marker = false)
    (ho : ∀ d ∈ o, ∀ c ∈ d, c.isDigit = true) :
    ∀ c ∈ (o.map (fun d => d ++ [marker])).getD [], isPySpace c = false := by
  intro c hc
  cases o with
  | none => simp at hc
  | some d =>
      simp only [Option.map_some', Option.getD_some, List.mem_append,
        List.mem_singleton] at hc
      rcases hc with hc | rfl
      · exact isPySpace_false_of_isDigit (ho d rfl c hc)
      · exact hmk

theorem pyStrip_mkDur (h mn s : Option (List Char))
    (hh : ∀ d ∈ h, d ≠ [] ∧ ∀ c ∈ d, c.isDigit = true)
    (hm : ∀ d ∈ mn, d ≠ [] ∧ ∀ c ∈ d, c.isDigit = true)
    (hs : ∀ d ∈ s, d ≠ [] ∧ ∀ c ∈ d, c.isDigit = true) :
    pyStrip (mkDur h mn s) = mkDur h mn s := by
  unfold mkDur
  apply pyStrip_of_noSpace
  intro c hc
  simp only [List.mem_cons, List.mem_append] at hc
  rcases hc with rfl | rfl | hc | hc | hc
  · decide
  · decide
  · exact part_noSpace h 'H' (by decide) (fun d hd => (hh d hd).2) c hc
  · exact part_noSpace mn 'M' (by decide) (fun d hd => (hm d hd).2) c hc
  · exact part_noSpace s 'S' (by decide) (fun d hd => (hs d hd).2) c hc

theorem intercalate_two (a b : String) :
    String.intercalate ":" [a, b] = a ++ ":" ++ b := by
  simp [String.intercalate, String.intercalate.go]

theorem intercalate_three (a b c : String) :
    String.intercalate ":" [a, b, c] = a ++ ":" ++ b ++ ":" ++ c := by
  simp [String.intercalate, String.intercalate.go]

/-- C2 (amended): for every duration string of the shape `PT[nH][nM][nS]`
built from non-empty digit runs, `parse_duration` renders `H:MM:SS` exactly
when the hours value is non-zero (so a present-but-zero hours component such
as in `PT0H2M3S` falls back to `MM:SS`), with minutes and seconds zero-padded
to two digits and missing components treated as zero. -/
theorem parse_duration_components (h mn s : Option (List Char))
    (hh : ∀ d ∈ h, d ≠ [] ∧ ∀ c ∈ d, c.isDigit = true)
    (hm : ∀ d ∈ mn, d ≠ [] ∧ ∀ c ∈ d, c.isDigit = true)
    (hs : ∀ d ∈ s, d ≠ [] ∧ ∀ c ∈ d, c.isDigit = true) :
    parse_duration (mkDur h mn s) =
      (if (h.map natOfDigits).getD 0 ≠ 0 then
        toString ((h.map natOfDigits).getD 0) ++ ":" ++
          pad2 ((mn.map natOfDigits).getD 0) ++ ":" ++
          pad2 ((s.map natOfDigits).getD 0)
      else
        pad2 ((mn.map natOfDigits).getD 0) ++ ":" ++
          pad2 ((s.map natOfDigits).getD 0)) := by
  have hne : mkDur h mn s ≠ "" := by
    unfold mkDur
    simp [String.ext_iff]
  unfold parse_duration
  rw [if_neg hne, pyStrip_mkDur h mn s hh hm hs, matchDuration_mkDur h mn s hh hm hs]
  by_cases h0 : (h.map natOfDigits).getD 0 = 0
  · simp [h0, intercalate_two]
  · simp [h0, intercalate_three]

/-- Witness for C2: instantiating the component theorem at `PT1H2M3S`. -/
theorem parse_duration_components_witness :
    parse_duration (mkDur (Option.some ['1']) (Option.some ['2']) (Option.some ['3']))
      = "1:02:03" := by
  have h := parse_duration_components (Option.some ['1']) (Option.some ['2'])
    (Option.some ['3'])
    (fun d hd => by
      simp only [Option.mem_def, Option.some.injEq] at hd
      subst hd; exact ⟨by decide, by decide⟩)
    (fun d hd => by
      simp only [Option.mem_def, Option.some.injEq] at hd
      subst hd; exact ⟨by decide, by decide⟩)
    (fun d hd => by
      simp only [Option.mem_def, Option.some.injEq] at hd
      subst hd; exact ⟨by decide, by decide⟩)
  rw [h]
  decide

/-- Counterexample to C2 as stated: the hours component of `PT0H2M3S` is
present, yet the output is `MM:SS`, not `H:MM:SS`. -/
theorem parse_duration_zero_hours_counterexample :
    parse_duration "PT0H2M3S" = "02:03" ∧ parse_duration "PT0H2M3S" ≠ "0:02:03" := by
  decide

theorem matchDuration_eq_none_of_not_pt (s : String)
    (hpt : startsWithPTci s = false) : matchDuration s = Option.none := by
  unfold startsWithPTci at hpt
  unfold matchDuration
  cases hl : s.toList with
  | nil => rfl
  | cons p rest =>
      cases rest with
      | nil => rfl
      | cons t rest2 =>
          rw [hl] at hpt
          have hcon : ¬ (p.toUpper = 'P' ∧ t.toUpper = 'T') := by
            intro hand
            simp [hand.1, hand.2] at hpt
          simp [hcon]

/-- C3 (amended): non-empty input whose stripped form does not begin with
the two characters `PT` (case-insensitively) is returned unchanged; a string
that does begin with `PT` always matches `DURATION_RE` because all three
components are optional, so inputs like `PTxyz` are not passed through. -/
theorem parse_duration_passthrough (s : String) (hne : s ≠ "")
    (hpt : startsWithPTci (pyStrip s) = false) :
    parse_duration s = s := by
  unfold parse_duration
  rw [if_neg hne, matchDuration_eq_none_of_not_pt (pyStrip s) hpt]

/-- Witness for C3: `garbage` is returned unchanged. -/
theorem parse_duration_passthrough_witness : parse_duration "garbage" = "garbage" :=
  parse_duration_passthrough "garbage" (by decide) (by decide)

/-- Counterexample to C3 as stated: `PTxyz` begins with `PT` and has no
valid component, yet it is not returned unchanged: every string starting
with `PT` matches the regex with all groups absent, giving `00:00`. -/
theorem parse_duration_ptxyz_counterexample :
    parse_duration "PTxyz" = "00:00" ∧ parse_duration "PTxyz" ≠ "PTxyz" := by
  decide

/-- C5: the spec's concrete duration test vectors hold on the code. -/
theorem parse_duration_vectors :
    parse_duration "PT55M5S" = "55:05" ∧
    parse_duration "PT1H2M3S" = "1:02:03" ∧
    parse_duration "PT5S" = "00:05" ∧
    parse_duration "" = "" ∧
    parse_duration "garbage" = "garbage" := by
  decide

/- --- Lemmas for the identifier normalizer --- -/

theorem filterMap_reSplitAux (cs : List Char) : ∀ (cur : List Char) (inSep : Bool),
    (∀ c ∈ cur, isSepChar c = false) → (inSep = true → cur = []) →
    (reSplitAux cs cur inSep).filterMap (fun part =>
        let part := pyStrip part
        if part = "" then Option.none else Option.some part)
      = specTokensAux cs cur := by
  induction cs with
  | nil =>
      intro cur inSep hcur _
      have hstrip : pyStrip (String.mk cur.reverse) = String.mk cur.reverse :=
        pyStrip_of_noSpace (fun c hc =>
          isPySpace_false_of_sep_false (hcur c (List.mem_reverse.mp hc)))
      cases cur with
      | nil => simp [reSplitAux, specTokensAux, pyStrip]
      | cons d ds =>
          have hne : String.mk (d :: ds).reverse ≠ "" := by
            simp [String.ext_iff]
          rw [List.reverse_cons] at hstrip hne
          simp [reSplitAux, specTokensAux, hstrip, hne]
  | cons c cs ih =>
      intro cur inSep hcur hsepinv
      by_cases hsep : isSepChar c = true
      · cases inSep with
        | true =>
            have hc0 : cur = [] := hsepinv rfl
            subst hc0
            simp only [reSplitAux, hsep, if_true]
            rw [ih [] true (fun x hx => absurd hx (List.not_mem_nil x)) (fun _ => rfl)]
            simp [specTokensAux, hsep]
        | false =>
            have hstrip : pyStrip (String.mk cur.reverse) = String.mk cur.reverse :=
              pyStrip_of_noSpace (fun x hx =>
                isPySpace_false_of_sep_false (hcur x (List.mem_reverse.mp hx)))
            cases cur with
            | nil =>
                simp only [reSplitAux, hsep, if_true, Bool.false_eq_true, if_false,
                  List.reverse_nil]
                rw [List.filterMap_cons]
                have hmt : pyStrip (String.mk []) = "" := rfl
                simp only [hmt]
                rw [ih [] true (fun x hx => absurd hx (List.not_mem_nil x)) (fun _ => rfl)]
                simp [specTokensAux, hsep]
            | cons d ds =>
                have hne : String.mk ((d :: ds).reverse) ≠ "" := by
                  simp [String.ext_iff]
                simp only [reSplitAux, hsep, if_true, Bool.false_eq_true, if_false]
                rw [List.filterMap_cons]
                simp only [hstrip, hne, if_neg hne]
                rw [ih [] true (fun x hx => absurd hx (List.not_mem_nil x)) (fun _ => rfl)]
                simp [specTokensAux, hsep]
      · have hsep2 : isSepChar c = false := by
          simpa using hsep
        simp only [reSplitAux, hsep2, Bool.false_eq_true, if_false]
        rw [ih (c :: cur) false
          (fun x hx => by
            rcases List.mem_cons.mp hx with rfl | hx2
            · exact hsep2
            · exact hcur x hx2)
          (fun hfalse => Bool.noConfusion hfalse)]
        simp [specTokensAux, hsep2]

/-- C7: `normalize_ids` returns exactly the concatenation, over the raw
input strings in order, of each string's maximal runs of non-separator
characters (non-empty tokens, duplicates and order preserved), and the
spec's concrete vectors hold. -/
theorem normalize_ids_tokens :
    (∀ raw : List String, normalize_ids raw = (raw.map specTokens).flatten) ∧
    normalize_ids ["a, b", " c  d"] = ["a", "b", "c", "d"] ∧
    normalize_ids [] = [] := by
  refine ⟨?_, by decide, by decide⟩
  intro raw
  induction raw with
  | nil => rfl
  | cons s rest ih =>
      unfold normalize_ids at ih ⊢
      rw [List.foldr_cons, ih, List.map_cons, List.flatten_cons]
      congr 1
      exact filterMap_reSplitAux s.toList [] false
        (fun x hx => absurd hx (List.not_mem_nil x)) (fun _ => rfl)

/- --- C8: Markdown pipe escaping --- -/

/-- C8: with the Markdown format selected the rendered rows are the
pipe-escaped copy of the rows (every string cell has `|` replaced by `\|`,
e.g. `a|b` becomes `a\|b`), with the grid format the rows are rendered
unchanged, and non-string cell values are never altered. -/
theorem markdown_escaping :
    (∀ rows, renderRows Fmt.markdown rows = _escape_pipes_for_markdown rows) ∧
    (∀ rows, renderRows Fmt.grid rows = rows) ∧
    (∀ k s, _escape_pipes_for_markdown [[(k, PyVal.str s)]]
        = [[(k, PyVal.str (escapePipes s))]]) ∧
    renderRows Fmt.markdown [[("title", PyVal.str "a|b")]]
      = [[("title", PyVal.str "a\\|b")]] ∧
    renderRows Fmt.grid [[("title", PyVal.str "a|b")]]
      = [[("title", PyVal.str "a|b")]] ∧
    (∀ k v, (∀ s, v ≠ PyVal.str s) →
      _escape_pipes_for_markdown [[(k, v)]] = [[(k, v)]]) := by
  refine ⟨fun rows => rfl, fun rows => rfl, fun k s => rfl, rfl, rfl, ?_⟩
  intro k v hv
  cases v with
  | str s => exact absurd rfl (hv s)
  | none => rfl
  | int n => rfl
  | list xs => rfl
  | dict fs => rfl

/-- Witness for C8: a non-string cell is left unchanged. -/
theorem markdown_escaping_witness :
    _escape_pipes_for_markdown [[("views", PyVal.int 7)]]
      = [[("views", PyVal.int 7)]] :=
  markdown_escaping.2.2.2.2.2 "views" (PyVal.int 7) (fun _ h => PyVal.noConfusion h)

/- --- C6: extractor defaults --- -/

/-- C6 (amended): on mapping-shaped items the count/text extractors degrade
to their defaults instead of raising: an absent statistics sub-mapping, a
null one, or an absent count field yield `"0"`; an absent or null snippet
sub-mapping or an absent snippet field yield `""`; an absent or null
contentDetails sub-mapping yields `""`; but a count field that is present
with a null value is passed through as the null value, not replaced by
`"0"`. -/
theorem extractor_defaults :
    (∀ fs, fs.lookup "statistics" = Option.none →
        _col_view_count (PyVal.dict fs) = Option.some (PyVal.str "0") ∧
        _col_like_count (PyVal.dict fs) = Option.some (PyVal.str "0") ∧
        _col_comment_count (PyVal.dict fs) = Option.some (PyVal.str "0")) ∧
    (∀ fs, fs.lookup "statistics" = Option.some PyVal.none →
        _col_view_count (PyVal.dict fs) = Option.some (PyVal.str "0") ∧
        _col_like_count (PyVal.dict fs) = Option.some (PyVal.str "0") ∧
        _col_comment_count (PyVal.dict fs) = Option.some (PyVal.str "0")) ∧
    (∀ fs sts, fs.lookup "statistics" = Option.some (PyVal.dict sts) →
        sts.lookup "viewCount" = Option.none →
        _col_view_count (PyVal.dict fs) = Option.some (PyVal.str "0")) ∧
    (∀ fs, fs.lookup "snippet" = Option.none →
        _col_title (PyVal.dict fs) = Option.some (PyVal.str "") ∧
        _col_channel_title (PyVal.dict fs) = Option.some (PyVal.str "") ∧
        _col_publication_date (PyVal.dict fs) = Option.some (PyVal.str "")) ∧
    (∀ fs, fs.lookup "snippet" = Option.some PyVal.none →
        _col_title (PyVal.dict fs) = Option.some (PyVal.str "") ∧
        _col_channel_title (PyVal.dict fs) = Option.some (PyVal.str "") ∧
        _col_publication_date (PyVal.dict fs) = Option.some (PyVal.str "")) ∧
    (∀ fs sn, fs.lookup "snippet" = Option.some (PyVal.dict sn) →
        sn.lookup "title" = Option.none →
        _col_title (PyVal.dict fs) = Option.some (PyVal.str "")) ∧
    (∀ fs, (fs.lookup "contentDetails" = Option.none ∨
        fs.lookup "contentDetails" = Option.some PyVal.none) →
        _col_duration (PyVal.dict fs) = Option.some (PyVal.str "")) ∧
    (∀ fs sts, fs.lookup "statistics" = Option.some (PyVal.dict sts) →
        sts.lookup "viewCount" = Option.some PyVal.none →
        _col_view_count (PyVal.dict fs) = Option.some PyVal.none) := by
  have hpd : parse_duration "" = "" := rfl
  refine ⟨?_, ?_, ?_, ?_, ?_, ?_, ?_, ?_⟩
  · intro fs h
    refine ⟨?_, ?_, ?_⟩ <;>
      simp [_col_view_count, _col_like_count, _col_comment_count, pyGet, dictGet,
        pyOr, PyVal.truthy, h]
  · intro fs h
    refine ⟨?_, ?_, ?_⟩ <;>
      simp [_col_view_count, _col_like_count, _col_comment_count, pyGet, dictGet,
        pyOr, PyVal.truthy, h]
  · intro fs sts h1 h2
    cases sts with
    | nil => simp [_col_view_count, pyGet, dictGet, pyOr, PyVal.truthy, h1]
    | cons a l => simp [_col_view_count, pyGet, dictGet, pyOr, PyVal.truthy, h1, h2]
  · intro fs h
    refine ⟨?_, ?_, ?_⟩ <;>
      simp [_col_title, _col_channel_title, _col_publication_date, pyGet, dictGet,
        pyOr, PyVal.truthy, h]
  · intro fs h
    refine ⟨?_, ?_, ?_⟩ <;>
      simp [_col_title, _col_channel_title, _col_publication_date, pyGet, dictGet,
        pyOr, PyVal.truthy, h]
  · intro fs sn h1 h2
    cases sn with
    | nil => simp [_col_title, pyGet, dictGet, pyOr, PyVal.truthy, h1]
    | cons a l => simp [_col_title, pyGet, dictGet, pyOr, PyVal.truthy, h1, h2]
  · intro fs h
    rcases h with h | h <;>
      simp [_col_duration, pyGet, dictGet, pyOr, PyVal.truthy, h, hpd]
  · intro fs sts h1 h2
    cases sts with
    | nil => simp at h2
    | cons a l => simp [_col_view_count, pyGet, dictGet, pyOr, PyVal.truthy, h1, h2]

/-- Witness for C6: an item with no statistics sub-mapping yields `"0"`. -/
theorem extractor_defaults_witness :
    _col_view_count (PyVal.dict []) = Option.some (PyVal.str "0") :=
  (extractor_defaults.1 [] rfl).1

/-- Counterexample to C6 as stated: a `viewCount` field that is present but
null is returned as the null value, not as the string `"0"`. -/
theorem view_count_null_counterexample :
    _col_view_count
        (PyVal.dict [("statistics", PyVal.dict [("viewCount", PyVal.none)])])
      = Option.some PyVal.none ∧
    Option.some PyVal.none ≠ Option.some (PyVal.str "0") := by
  refine ⟨rfl, fun h => ?_⟩
  injection h with h2
  exact PyVal.noConfusion h2

/- --- Row-label order lemmas (C1, C10) --- -/

theorem dictSet_fresh (d : List (String × PyVal)) (k : String) (v : PyVal)
    (h : ∀ kv ∈ d, kv.1 ≠ k) : dictSet d k v = d ++ [(k, v)] := by
  unfold dictSet
  rw [if_neg]
  simp only [List.any_eq_true, decide_eq_true_eq, not_exists, not_and]
  exact h

theorem buildRow_loop_keys (item : PyVal) : ∀ (cols : List String)
    (acc row : List (String × PyVal)),
    (acc.map Prod.fst ++ labelsOf cols).Nodup →
    (cols.foldlM (fun row col_id =>
        match COLUMN_EXTRACTORS.lookup col_id with
        | Option.none => pure row
        | Option.some (label, extractor) => do
            let v ← extractor item
            pure (dictSet row label v)) acc) = Option.some row →
    row.map Prod.fst = acc.map Prod.fst ++ labelsOf cols := by
  intro cols
  induction cols with
  | nil =>
      intro acc row _ h
      simp only [List.foldlM_nil] at h
      injection h with h2
      subst h2
      simp [labelsOf]
  | cons c cols ih =>
      intro acc row hnd h
      rw [List.foldlM_cons] at h
      cases hc : COLUMN_EXTRACTORS.lookup c with
      | none =>
          rw [hc] at h
          have hlab : labelsOf (c :: cols) = labelsOf cols := by
            simp [labelsOf, List.filterMap_cons, hc]
          rw [hlab] at hnd ⊢
          exact ih acc row hnd h
      | some p =>
          obtain ⟨label, extractor⟩ := p
          rw [hc] at h
          dsimp only at h
          have hlab : labelsOf (c :: cols) = label :: labelsOf cols := by
            simp [labelsOf, List.filterMap_cons, hc]
          rw [hlab] at hnd ⊢
          cases hev : extractor item with
          | none => rw [hev] at h; simp at h
          | some v =>
              rw [hev] at h
              simp at h
              have hfresh : ∀ kv ∈ acc, kv.1 ≠ label := by
                intro kv hkv heq
                have hnotin : label ∉ acc.map Prod.fst := by
                  have := (List.nodup_append.mp hnd).2.2
                  intro hmem
                  exact this hmem (List.mem_cons_self label (labelsOf cols))
                exact hnotin (heq ▸ List.mem_map_of_mem Prod.fst hkv)
              have hstep : dictSet acc label v = acc ++ [(label, v)] :=
                dictSet_fresh acc label v hfresh
              rw [hstep] at h
              have hkeys : ((acc ++ [(label, v)]).map Prod.fst ++ labelsOf cols).Nodup := by
                simpa [List.append_assoc] using hnd
              have := ih (acc ++ [(label, v)]) row hkeys h
              simpa [List.append_assoc] using this

theorem buildRow_keys (item : PyVal) (cols : List String)
    (row : List (String × PyVal)) (hnd : (labelsOf cols).Nodup)
    (h : buildRow item cols = Option.some row) :
    row.map Prod.fst = labelsOf cols := by
  have := buildRow_loop_keys item cols [] row (by simpa using hnd) h
  simpa using this

theorem mapM_option_mem_of {α β : Type} (f : α → Option β) :
    ∀ (l : List α) (out : List β), l.mapM f = Option.some out →
      ∀ y ∈ out, ∃ x ∈ l, f x = Option.some y := by
  intro l
  induction l with
  | nil =>
      intro out h y hy
      simp only [List.mapM_nil] at h
      injection h with h2
      subst h2
      exact absurd hy (List.not_mem_nil y)
  | cons x xs ih =>
      intro out h y hy
      rw [List.mapM_cons] at h
      cases hfx : f x with
      | none => rw [hfx] at h; simp at h
      | some b =>
          rw [hfx] at h
          cases hm : xs.mapM f with
          | none => rw [hm] at h; simp at h
          | some bs =>
              rw [hm] at h
              simp at h
              subst h
              rcases List.mem_cons.mp hy with rfl | hy2
              · exact ⟨x, List.mem_cons_self x xs, hfx⟩
              · obtain ⟨x2, hx2, hfx2⟩ := ih bs hm y hy2
                exact ⟨x2, List.mem_cons_of_mem x hx2, hfx2⟩

/-- C1 (amended): for a caller-supplied subset of column ids, each produced
row's labels appear in the order the subset was specified (restricted to
ids present in the registry), not in the registry's defined order:
selecting `["title", "id"]` yields labels title, then id. -/
theorem items_to_rows_label_order (items : List PyVal) (cols : List String)
    (rows : List (List (String × PyVal)))
    (hnd : (labelsOf cols).Nodup) (hne : cols ≠ [])
    (h : items_to_rows items (Option.some cols) = Option.some rows) :
    ∀ row ∈ rows, row.map Prod.fst = labelsOf cols := by
  intro row hrow
  cases cols with
  | nil => exact absurd rfl hne
  | cons a l =>
      unfold items_to_rows at h
      simp only [List.isEmpty_cons, Bool.false_eq_true, if_false] at h
      obtain ⟨item, _, hb⟩ := mapM_option_mem_of _ items rows h row hrow
      exact buildRow_keys item (a :: l) row hnd hb

/-- Witness for C1: the selection `["title", "id"]` on a concrete item. -/
theorem items_to_rows_label_order_witness :
    [("title", PyVal.str ""), ("id", PyVal.str "")].map Prod.fst
      = labelsOf ["title", "id"] :=
  items_to_rows_label_order [PyVal.dict []] ["title", "id"]
    [[("title", PyVal.str ""), ("id", PyVal.str "")]]
    (by decide) (by decide) rfl
    [("title", PyVal.str ""), ("id", PyVal.str "")] (List.mem_singleton.mpr rfl)

/-- Counterexample to C1 as stated: selecting `["title", "id"]` yields rows
labelled title then id — the selection order, not the registry order. -/
theorem items_to_rows_subset_counterexample :
    (items_to_rows [PyVal.dict [("id", PyVal.str "X"),
        ("snippet", PyVal.dict [("title", PyVal.str "T")])]]
      (Option.some ["title", "id"])).map (List.map (List.map Prod.fst))
      = Option.some [["title", "id"]] ∧
    (Option.some [["title", "id"]] : Option (List (List String)))
      ≠ Option.some [["id", "title"]] := by
  exact ⟨rfl, by decide⟩

/-- C10: an explicitly empty column list behaves exactly like no column
selection — the default registry columns are substituted — and every row
then carries all eight default labels. -/
theorem items_to_rows_empty_columns :
    (∀ items, items_to_rows items (Option.some [])
        = items_to_rows items Option.none) ∧
    (∀ items rows, items_to_rows items (Option.some []) = Option.some rows →
      ∀ row ∈ rows, row.map Prod.fst
        = ["id", "title", "publication date", "channel title", "view count",
           "like count", "comment count", "duration"]) := by
  constructor
  · intro items
    rfl
  · intro items rows h row hrow
    unfold items_to_rows at h
    obtain ⟨item, _, hb⟩ := mapM_option_mem_of _ items rows h row hrow
    have hkeys := buildRow_keys item DEFAULT_TABLE_COLUMNS row (by decide) hb
    rw [hkeys]
    rfl

/-- Witness for C10: a concrete one-item run with an empty column list. -/
theorem items_to_rows_empty_columns_witness :
    items_to_rows [PyVal.dict []] (Option.some [])
      = items_to_rows [PyVal.dict []] Option.none ∧
    [("id", PyVal.str ""), ("title", PyVal.str ""),
     ("publication date", PyVal.str ""), ("channel title", PyVal.str ""),
     ("view count", PyVal.str "0"), ("like count", PyVal.str "0"),
     ("comment count", PyVal.str "0"), ("duration", PyVal.str "")].map Prod.fst
      = ["id", "title", "publication date", "channel title", "view count",
         "like count", "comment count", "duration"] :=
  ⟨items_to_rows_empty_columns.1 [PyVal.dict []],
   items_to_rows_empty_columns.2 [PyVal.dict []]
     [[("id", PyVal.str ""), ("title", PyVal.str ""),
       ("publication date", PyVal.str ""), ("channel title", PyVal.str ""),
       ("view count", PyVal.str "0"), ("like count", PyVal.str "0"),
       ("comment count", PyVal.str "0"), ("duration", PyVal.str "")]] rfl
     [("id", PyVal.str ""), ("title", PyVal.str ""),
      ("publication date", PyVal.str ""), ("channel title", PyVal.str ""),
      ("view count", PyVal.str "0"), ("like count", PyVal.str "0"),
      ("comment count", PyVal.str "0"), ("duration", PyVal.str "")]
     (List.mem_singleton.mpr rfl)⟩

/- --- Batch-fetcher lemmas (C4) --- -/

theorem chunksGo_fuel : ∀ (f1 f2 : Nat) (l : List String), l.length ≤ f1 →
    l.length ≤ f2 → chunksGo f1 l = chunksGo f2 l := by
  intro f1
  induction f1 with
  | zero =>
      intro f2 l h1 _
      cases l with
      | nil => cases f2 <;> rfl
      | cons x xs => simp at h1
  | succ f ih =>
      intro f2 l h1 h2
      cases l with
      | nil => cases f2 <;> rfl
      | cons x xs =>
          cases f2 with
          | zero => simp at h2
          | succ g =>
              simp only [List.length_cons] at h1 h2
              simp only [chunksGo]
              congr 1
              apply ih
              · simp only [List.length_drop, List.length_cons, BATCH_SIZE]
                omega
              · simp only [List.length_drop, List.length_cons, BATCH_SIZE]
                omega

theorem chunksOf_step (l : List String) (h : l ≠ []) :
    chunksOf l = l.take BATCH_SIZE :: chunksOf (l.drop BATCH_SIZE) := by
  cases l with
  | nil => exact absurd rfl h
  | cons x xs =>
      show chunksGo (xs.length + 1) (x :: xs) = _
      simp only [chunksGo]
      congr 1
      apply chunksGo_fuel
      · simp only [List.length_drop, List.length_cons, BATCH_SIZE]
        omega
      · exact le_refl _

theorem chunksGo_join : ∀ (fuel : Nat) (l : List String), l.length ≤ fuel →
    (chunksGo fuel l).flatten = l := by
  intro fuel
  induction fuel with
  | zero =>
      intro l h
      cases l with
      | nil => rfl
      | cons x xs => simp at h
  | succ f ih =>
      intro l h
      cases l with
      | nil => rfl
      | cons x xs =>
          simp only [List.length_cons] at h
          simp only [chunksGo, List.flatten_cons]
          rw [ih ((x :: xs).drop BATCH_SIZE)
            (by simp only [List.length_drop, List.length_cons, BATCH_SIZE]; omega)]
          exact List.take_append_drop BATCH_SIZE (x :: xs)

theorem chunksGo_mem : ∀ (fuel : Nat) (l : List String) (c : List String),
    c ∈ chunksGo fuel l → c ≠ [] ∧ c.length ≤ BATCH_SIZE := by
  intro fuel
  induction fuel with
  | zero =>
      intro l c hc
      cases l with
      | nil => simp [chunksGo] at hc
      | cons x xs => simp [chunksGo] at hc
  | succ f ih =>
      intro l c hc
      cases l with
      | nil => simp [chunksGo] at hc
      | cons x xs =>
          simp only [chunksGo] at hc
          rcases List.mem_cons.mp hc with rfl | hc2
          · constructor
            · simp [BATCH_SIZE, List.take_eq_nil_iff]
            · simp only [List.length_take]
              exact min_le_left _ _
          · exact ih _ c hc2

theorem chunksOf_120 (ids : List String) (h : ids.length = 120) :
    (chunksOf ids).map List.length = [50, 50, 20] := by
  have h1 : ids ≠ [] := by
    intro he
    rw [he] at h
    simp at h
  have hd1 : (ids.drop BATCH_SIZE).length = 70 := by
    simp [List.length_drop, BATCH_SIZE, h]
  have h2 : ids.drop BATCH_SIZE ≠ [] := by
    intro he
    rw [he] at hd1
    simp at hd1
  have hd2 : ((ids.drop BATCH_SIZE).drop BATCH_SIZE).length = 20 := by
    simp [List.length_drop, BATCH_SIZE, h]
  have h3 : (ids.drop BATCH_SIZE).drop BATCH_SIZE ≠ [] := by
    intro he
    rw [he] at hd2
    simp at hd2
  have hd3 : (((ids.drop BATCH_SIZE).drop BATCH_SIZE).drop BATCH_SIZE).length = 0 := by
    simp [List.length_drop, BATCH_SIZE, h]
  rw [chunksOf_step ids h1, chunksOf_step _ h2, chunksOf_step _ h3,
    List.eq_nil_of_length_eq_zero hd3]
  show [(ids.take BATCH_SIZE).length, ((ids.drop BATCH_SIZE).take BATCH_SIZE).length,
      (((ids.drop BATCH_SIZE).drop BATCH_SIZE).take BATCH_SIZE).length] ++ []
    = [50, 50, 20]
  simp [List.length_take, BATCH_SIZE, h, hd1, hd2]

theorem fetchLoop_ok (api_key : String) (fetch : List (String × String) → ChunkResult)
    (resp : List String → List PyVal) :
    ∀ (chunks : List (List String)) (acc : List PyVal),
    (∀ c ∈ chunks, ∃ p, fetch (requestParams api_key c) = ChunkResult.ok p ∧
        pyItems p = Option.some (resp c)) →
    fetchLoop api_key fetch chunks acc
      = ⟨chunks.map (requestParams api_key),
         Except.ok (acc ++ (chunks.map resp).flatten)⟩ := by
  intro chunks
  induction chunks with
  | nil =>
      intro acc _
      simp [fetchLoop]
  | cons c cs ih =>
      intro acc hall
      obtain ⟨p, hf, hp⟩ := hall c (List.mem_cons_self c cs)
      simp only [fetchLoop, hf, hp]
      rw [ih (acc ++ resp c) (fun d hd => hall d (List.mem_cons_of_mem c hd))]
      simp [List.append_assoc]

/-- C4: `fetch_videos` partitions the identifiers into consecutive non-empty
chunks of at most `BATCH_SIZE` whose concatenation is the original sequence
(120 identifiers give exactly the chunk sizes 50, 50, 20), issues one request
per chunk carrying the chunk's ids, and when every chunk succeeds returns the
concatenation of the chunks' items arrays in chunk order. -/
theorem fetch_videos_batching :
    (∀ ids : List String, ∀ c ∈ chunksOf ids, c ≠ [] ∧ c.length ≤ BATCH_SIZE) ∧
    (∀ ids : List String, (chunksOf ids).flatten = ids) ∧
    (∀ ids : List String, ids.length = 120 →
      (chunksOf ids).map List.length = [50, 50, 20]) ∧
    (∀ (api_key : String) (fetch : List (String × String) → ChunkResult)
        (ids : List String) (resp : List String → List PyVal),
      (∀ c ∈ chunksOf ids, ∃ p, fetch (requestParams api_key c) = ChunkResult.ok p ∧
          pyItems p = Option.some (resp c)) →
      fetch_videos api_key fetch ids
        = ⟨(chunksOf ids).map (requestParams api_key),
           Except.ok ((chunksOf ids).map resp).flatten⟩) := by
  refine ⟨?_, ?_, chunksOf_120, ?_⟩
  · intro ids c hc
    exact chunksGo_mem ids.length ids c hc
  · intro ids
    exact chunksGo_join ids.length ids (le_refl _)
  · intro api_key fetch ids resp hall
    unfold fetch_videos
    rw [fetchLoop_ok api_key fetch resp (chunksOf ids) [] hall]
    simp

/-- Witness for C4: 120 concrete identifiers and an always-succeeding
fetch. -/
theorem fetch_videos_batching_witness :
    (chunksOf (List.replicate 120 "v")).map List.length = [50, 50, 20] ∧
    fetch_videos "k" (fun _ => ChunkResult.ok (PyVal.dict [("items", PyVal.list [])]))
        (List.replicate 120 "v")
      = ⟨(chunksOf (List.replicate 120 "v")).map (requestParams "k"),
         Except.ok ((chunksOf (List.replicate 120 "v")).map
           (fun _ => ([] : List PyVal))).flatten⟩ :=
  ⟨fetch_videos_batching.2.2.1 (List.replicate 120 "v") (by simp),
   fetch_videos_batching.2.2.2 "k"
     (fun _ => ChunkResult.ok (PyVal.dict [("items", PyVal.list [])]))
     (List.replicate 120 "v") (fun _ => [])
     (fun c _ => ⟨PyVal.dict [("items", PyVal.list [])], rfl, rfl⟩)⟩

/- --- Exit-code lemmas (C9) --- -/

theorem get_api_key_error (e : Option String) (c : Nat)
    (h : get_api_key e = Except.error c) : c = 1 := by
  unfold get_api_key at h
  by_cases hk : pyStrip (e.getD "") = ""
  · rw [if_pos hk] at h
    injection h with h2
    exact h2.symm
  · rw [if_neg hk] at h
    exact Except.noConfusion h

theorem fetchLoop_error_one (api_key : String)
    (fetch : List (String × String) → ChunkResult) :
    ∀ (chunks : List (List String)) (acc : List PyVal) (c : Nat),
    (fetchLoop api_key fetch chunks acc).result = Except.error c → c = 1 := by
  intro chunks
  induction chunks with
  | nil =>
      intro acc c h
      simp [fetchLoop] at h
  | cons ch cs ih =>
      intro acc c h
      simp only [fetchLoop] at h
      cases hf : fetch (requestParams api_key ch) with
      | httpError code body =>
          rw [hf] at h
          dsimp only at h
          injection h with h2
          exact h2.symm
      | urlError reason =>
          rw [hf] at h
          dsimp only at h
          injection h with h2
          exact h2.symm
      | badJson msg =>
          rw [hf] at h
          dsimp only at h
          injection h with h2
          exact h2.symm
      | ok p =>
          rw [hf] at h
          dsimp only at h
          cases hp : pyItems p with
          | none =>
              rw [hp] at h
              dsimp only at h
              injection h with h2
              exact h2.symm
          | some items =>
              rw [hp] at h
              dsimp only at h
              exact ih (acc ++ items) c h

theorem renderRows_ne_nil (fmt : Fmt) (rows : List (List (String × PyVal)))
    (h : rows ≠ []) : renderRows fmt rows ≠ [] := by
  cases fmt with
  | markdown =>
      intro he
      unfold renderRows _escape_pipes_for_markdown at he
      exact h (by simpa using he)
  | grid => exact h

theorem mainModel_shape (env : Env) :
    mainModel env = MainResult.exitWith 1 ∨
    ∃ rows, mainModel env = MainResult.rendered rows ∧ rows ≠ [] := by
  unfold mainModel
  cases h1 : effectiveRawIds env with
  | none => exact Or.inl rfl
  | some raw =>
      by_cases h2 : (normalize_ids raw).isEmpty = true
      · simp [h2]
      · have h2f : (normalize_ids raw).isEmpty = false := by
          simpa using h2
        cases h3 : get_api_key env.apiKeyEnv with
        | error c =>
            have hc := get_api_key_error env.apiKeyEnv c h3
            subst hc
            simp [h2f]
        | ok key =>
            cases h4 : (fetch_videos key env.fetch (normalize_ids raw)).result with
            | error c =>
                have hc := fetchLoop_error_one key env.fetch
                  (chunksOf (normalize_ids raw)) [] c h4
                subst hc
                simp [h2f, h4]
            | ok items =>
                cases h5 : items_to_rows items Option.none with
                | none => simp [h2f, h4, h5]
                | some rows =>
                    by_cases h6 : rows.isEmpty = true
                    · simp [h2f, h4, h5, h6]
                    · have h6f : rows.isEmpty = false := by
                        simpa using h6
                      refine Or.inr ⟨renderRows env.fmt rows, ?_, ?_⟩
                      · simp [h2f, h4, h5, h6f]
                      · exact renderRows_ne_nil env.fmt rows
                          (by simpa using h6)

/-- C9: the modelled `main` exits with status 0 exactly when a non-empty
table was rendered, and each failure condition — end-of-input at the prompt,
no identifiers after normalization, a missing or blank API key, a transport,
HTTP or JSON error on any chunk, and zero fetched items — exits with
status 1. -/
theorem main_exit_codes (env : Env) :
    (exitCodeOf (mainModel env) = 0 ↔
      ∃ rows, mainModel env = MainResult.rendered rows ∧ rows ≠ []) ∧
    (pyStrip ((env.apiKeyEnv).getD "") = "" →
      mainModel env = MainResult.exitWith 1) ∧
    (effectiveRawIds env = Option.none →
      mainModel env = MainResult.exitWith 1) ∧
    (∀ raw, effectiveRawIds env = Option.some raw → normalize_ids raw = [] →
      mainModel env = MainResult.exitWith 1) ∧
    (∀ raw key, effectiveRawIds env = Option.some raw →
      get_api_key env.apiKeyEnv = Except.ok key →
      (fetch_videos key env.fetch (normalize_ids raw)).result = Except.error 1 →
      mainModel env = MainResult.exitWith 1) ∧
    (∀ raw key, effectiveRawIds env = Option.some raw →
      get_api_key env.apiKeyEnv = Except.ok key →
      (fetch_videos key env.fetch (normalize_ids raw)).result = Except.ok [] →
      mainModel env = MainResult.exitWith 1) := by
  refine ⟨?_, ?_, ?_, ?_, ?_, ?_⟩
  · constructor
    · intro h0
      rcases mainModel_shape env with h | h
      · rw [h] at h0
        exact absurd h0 (by simp [exitCodeOf])
      · exact h
    · rintro ⟨rows, hr, _⟩
      rw [hr]
      rfl
  · intro hk
    have hkey : get_api_key env.apiKeyEnv = Except.error 1 := by
      unfold get_api_key
      rw [if_pos hk]
    unfold mainModel
    cases h1 : effectiveRawIds env with
    | none => rfl
    | some raw =>
        by_cases h2 : (normalize_ids raw).isEmpty = true
        · simp [h2]
        · have h2f : (normalize_ids raw).isEmpty = false := by
            simpa using h2
          simp [h2f, hkey]
  · intro h1
    unfold mainModel
    rw [h1]
  · intro raw h1 h2
    unfold mainModel
    rw [h1]
    have he : (normalize_ids raw).isEmpty = true := by
      simp [h2]
    simp [he]
  · intro raw key h1 hkey hfe
    unfold mainModel
    rw [h1]
    by_cases h2 : (normalize_ids raw).isEmpty = true
    · simp [h2]
    · have h2f : (normalize_ids raw).isEmpty = false := by
        simpa using h2
      simp [h2f, hkey, hfe]
  · intro raw key h1 hkey hfe
    unfold mainModel
    rw [h1]
    by_cases h2 : (normalize_ids raw).isEmpty = true
    · simp [h2]
    · have h2f : (normalize_ids raw).isEmpty = false := by
        simpa using h2
      simp [h2f, hkey, hfe, items_to_rows, List.mapM.loop]

/-- Witness for C9: a run with no API key set exits with status 1. -/
theorem main_exit_codes_witness :
    mainModel ⟨["a"], Option.none, Fmt.markdown, Option.none,
        fun _ => ChunkResult.ok (PyVal.dict [])⟩
      = MainResult.exitWith 1 :=
  (main_exit_codes ⟨["a"], Option.none, Fmt.markdown, Option.none,
      fun _ => ChunkResult.ok (PyVal.dict [])⟩).2.1 rfl

end YtExtract

